import Mathlib

/-!
Verification development for the Van Vliet low-volatility stock screener
(`screener.py`).  The definitions below are a shallow embedding of the
program: prices and metric values are modelled as rationals, pandas /
numpy numeric conventions (linear-interpolation quantiles, average ranks
on ties, round-half-to-even) are embedded explicitly, and the
filter/rank/score/select pipeline of `run_screener` is a pure function
from the list of valid records (plus the run timestamp) to an optional
output artifact.
-/

namespace Screener

/-- Round half to even to an integer (numpy / Python 3 `round` semantics). -/
def roundHE (x : ℚ) : ℤ :=
  let f := ⌊x⌋
  let r := x - (f : ℚ)
  if r < 1/2 then f
  else if 1/2 < r then f + 1
  else if f % 2 = 0 then f else f + 1

/-- Python `round(x, 2)`. -/
def round2 (x : ℚ) : ℚ := (roundHE (x * 100) : ℚ) / 100

/-- pandas `Series.round(1)` applied to one entry. -/
def round1 (x : ℚ) : ℚ := (roundHE (x * 10) : ℚ) / 10

/-- Python `int()` applied to a float: truncation toward zero. -/
def pyInt (x : ℚ) : ℤ := if 0 ≤ x then ⌊x⌋ else ⌈x⌉

/-- `prices.pct_change().dropna()`: daily simple returns, the undefined
first return dropped. -/
def dailyReturns (prices : List ℚ) : List ℚ :=
  (prices.zip prices.tail).map (fun p => p.2 / p.1 - 1)

/-- pandas `Series.std` with the default `ddof=1`, before the square
root: sample variance with an N−1 denominator. -/
def sampleVar (xs : List ℚ) : ℚ :=
  ((xs.map (fun x => (x - xs.sum / (xs.length : ℚ)) ^ 2)).sum) / ((xs.length : ℚ) - 1)

/-- `calculate_volatility` (screener.py:202): annualised 12-month
volatility, `none` when fewer than 50 daily returns remain. -/
noncomputable def calculate_volatility (prices : List ℚ) : Option ℝ :=
  let returns := dailyReturns prices
  if returns.length < 50 then none
  else some (Real.sqrt ((sampleVar returns : ℚ) : ℝ) * Real.sqrt 252 * 100)

/-- `calculate_momentum` (screener.py:209).  `prices.iloc[-21]` is the
element at position `length − 21`. -/
def calculate_momentum (prices : List ℚ) : Option ℚ :=
  if prices.length < 220 then none
  else
    let price_12m_ago := prices.headD 0
    let price_1m_ago := prices.getD (prices.length - 21) 0
    if price_12m_ago = 0 then none
    else some ((price_1m_ago / price_12m_ago - 1) * 100)

/-- The fields of the Yahoo fundamentals dict read by `get_div_yield`;
`none` models an absent key. -/
structure TickerInfo where
  trailingAnnualDividendRate : Option ℚ
  currentPrice : Option ℚ
  regularMarketPrice : Option ℚ
  trailingAnnualDividendYield : Option ℚ
  deriving DecidableEq

/-- Python truthiness of an optional float: `None` and `0.0` are falsy. -/
def truthy (o : Option ℚ) : Bool :=
  match o with
  | none => false
  | some x => decide (x ≠ 0)

/-- Python `a or b` on optional floats. -/
def pyOr (a b : Option ℚ) : Option ℚ := if truthy a then a else b

/-- `get_div_yield` (screener.py:219): primary strategy
`div_rate / price * 100` accepted on `(0, 20)`, fallback
`trailingAnnualDividendYield` accepted on `(0, 0.20)`, default `0.0`. -/
def get_div_yield (info : TickerInfo) : ℚ :=
  let price := pyOr info.currentPrice info.regularMarketPrice
  let primary : Option ℚ :=
    match info.trailingAnnualDividendRate, price with
    | some d, some p =>
      if d ≠ 0 ∧ p ≠ 0 ∧ 0 < p ∧ 0 < d then
        let dy := d / p * 100
        if 0 < dy ∧ dy < 20 then some (round2 dy) else none
      else none
    | _, _ => none
  match primary, info.trailingAnnualDividendYield with
  | some v, _ => v
  | none, some dy2 => if dy2 ≠ 0 ∧ 0 < dy2 ∧ dy2 < 1/5 then round2 (dy2 * 100) else 0
  | none, none => 0

/-- `VOLATILITY_PERCENTILE = 0.30`. -/
def VOLATILITY_PERCENTILE : ℚ := 3/10

/-- `MOMENTUM_CUTOFF = 0.25`. -/
def MOMENTUM_CUTOFF : ℚ := 1/4

/-- `TOP_N = 10`. -/
def TOP_N : ℕ := 10

/-- `W_VOL = 0.40`. -/
def W_VOL : ℚ := 2/5

/-- `W_MOM = 0.35`. -/
def W_MOM : ℚ := 7/20

/-- `W_YILD = 0.25`. -/
def W_YILD : ℚ := 1/4

/-- One validated per-ticker record as appended in `run_screener`
(screener.py:295): the metric fields already hold the rounded values. -/
structure SecurityRecord where
  ticker : String
  name : String
  sector : String
  volatility : ℚ
  momentum : ℚ
  div_yield : ℚ
  deriving DecidableEq

/-- Insertion into a list sorted by the Boolean preorder `le`; the new
element goes before the first existing element it `le`-precedes, which
makes the derived sort stable. -/
def insertOrd {α : Type} (le : α → α → Bool) (a : α) : List α → List α
  | [] => [a]
  | b :: l => if le a b then a :: b :: l else b :: insertOrd le a l

/-- Stable insertion sort by a Boolean preorder; models the stable
sorts performed inside pandas `quantile` and `nlargest`. -/
def sortOrd {α : Type} (le : α → α → Bool) : List α → List α
  | [] => []
  | a :: l => insertOrd le a (sortOrd le l)

/-- The strengthened order produced by a stable sort: strictly
`le`-below, or tied and already related by `R` in the input. -/
def SRel {α : Type} (le : α → α → Bool) (R : α → α → Prop) (a b : α) : Prop :=
  (le a b = true ∧ le b a = false) ∨ (le a b = true ∧ le b a = true ∧ R a b)

/-- Ascending comparison on ℚ as a Boolean. -/
def qle (a b : ℚ) : Bool := decide (a ≤ b)

/-- pandas `Series.quantile` with the default linear interpolation
between order statistics. -/
def quantile (q : ℚ) (xs : List ℚ) : ℚ :=
  let s := sortOrd qle xs
  let n := s.length
  let h := q * ((n : ℚ) - 1)
  let i := (⌊h⌋).toNat
  let lo := s.getD i 0
  let hi := s.getD (i + 1) lo
  lo + (h - (i : ℚ)) * (hi - lo)

/-- Step 1 of the pipeline (screener.py:324):
`df = df[df['volatility'] <= df['volatility'].quantile(VOLATILITY_PERCENTILE)]`.
Rows carry their original 0-based DataFrame index. -/
def volFilter (rows : List (ℕ × SecurityRecord)) : List (ℕ × SecurityRecord) :=
  let vol_threshold := quantile VOLATILITY_PERCENTILE (rows.map (fun r => r.2.volatility))
  rows.filter (fun r => decide (r.2.volatility ≤ vol_threshold))

/-- Step 2 of the pipeline (screener.py:329):
`df = df[df['momentum'] >= df['momentum'].quantile(MOMENTUM_CUTOFF)]`. -/
def momFilter (rows : List (ℕ × SecurityRecord)) : List (ℕ × SecurityRecord) :=
  let mom_threshold := quantile MOMENTUM_CUTOFF (rows.map (fun r => r.2.momentum))
  rows.filter (fun r => decide (mom_threshold ≤ r.2.momentum))

/-- pandas `Series.rank(ascending=True)` (default `method='average'`)
evaluated at one element: count below plus the average position within
the tied block. -/
def rankAsc (xs : List ℚ) (x : ℚ) : ℚ :=
  ((xs.countP (fun y => decide (y < x)) : ℚ)) +
    (((xs.countP (fun y => decide (y = x)) : ℚ)) + 1) / 2

/-- pandas `Series.rank(ascending=False)` (default `method='average'`)
evaluated at one element. -/
def rankDesc (xs : List ℚ) (x : ℚ) : ℚ :=
  ((xs.countP (fun y => decide (x < y)) : ℚ)) +
    (((xs.countP (fun y => decide (y = x)) : ℚ)) + 1) / 2

/-- A row of the doubly filtered DataFrame together with the derived
`rank_vol`, `rank_mom`, `rank_yild` and `score` columns
(screener.py:335–343). -/
structure Scored where
  idx : ℕ
  record : SecurityRecord
  rank_vol : ℚ
  rank_mom : ℚ
  rank_yild : ℚ
  score : ℚ
  deriving DecidableEq

/-- Step 3 of the pipeline applied to one row: normalized percentile
ranks `rank/n*100` per metric and the rounded composite score. -/
def scoreRow (rows : List (ℕ × SecurityRecord)) (r : ℕ × SecurityRecord) : Scored :=
  let n : ℚ := (rows.length : ℚ)
  let rv := rankAsc (rows.map (fun x => x.2.volatility)) r.2.volatility / n * 100
  let rm := rankDesc (rows.map (fun x => x.2.momentum)) r.2.momentum / n * 100
  let ry := rankDesc (rows.map (fun x => x.2.div_yield)) r.2.div_yield / n * 100
  { idx := r.1, record := r.2, rank_vol := rv, rank_mom := rm, rank_yild := ry,
    score := round1 ((100 - rv) * W_VOL + (100 - rm) * W_MOM + (100 - ry) * W_YILD) }

/-- Step 3 of the pipeline over the whole table (screener.py:334–343). -/
def scoreRows (rows : List (ℕ × SecurityRecord)) : List Scored :=
  rows.map (scoreRow rows)

/-- Boolean comparison underlying `nlargest(TOP_N, 'score')`: descending
score. -/
def scoreGe (a b : Scored) : Bool := decide (b.score ≤ a.score)

/-- The doubly filtered table of `run_screener`, rows indexed by their
original position in `records`. -/
def filteredTable (recs : List SecurityRecord) : List (ℕ × SecurityRecord) :=
  momFilter (volFilter recs.enum)

/-- The scored table of `run_screener` right before top-N selection. -/
def rankedTable (recs : List SecurityRecord) : List Scored :=
  scoreRows (filteredTable recs)

/-- The scored table stably sorted by descending score; pandas
`nlargest` with the default `keep='first'` sorts this way (ties kept in
original row order). -/
def sortedByScore (recs : List SecurityRecord) : List Scored :=
  sortOrd scoreGe (rankedTable recs)

/-- `df.nlargest(TOP_N, 'score')` (screener.py:346). -/
def topTable (recs : List SecurityRecord) : List Scored :=
  (sortedByScore recs).take TOP_N

/-- One element of the serialized `stocks` array (screener.py:364–374). -/
structure StockOut where
  rank : ℕ
  ticker : String
  name : String
  sector : String
  volatility : ℚ
  momentum : ℚ
  div_yield : ℚ
  score : ℤ
  deriving DecidableEq

/-- The serialized output artifact (screener.py:361-377); `updated` is
the run timestamp. -/
structure Output where
  updated : String
  universe_count : ℕ
  stocks : List StockOut
  deriving DecidableEq

/-- Serialization of the top-N table: `rank` is the 1-based position
after `reset_index`, `score` passes through Python `int()`. -/
def serializeStocks (l : List Scored) : List StockOut :=
  l.enum.map (fun p =>
    { rank := p.1 + 1, ticker := p.2.record.ticker, name := p.2.record.name,
      sector := p.2.record.sector, volatility := p.2.record.volatility,
      momentum := p.2.record.momentum, div_yield := p.2.record.div_yield,
      score := pyInt p.2.score })

/-- `run_screener` from the point where the list of valid records is
assembled (screener.py:316–377): the universe-size guard, the two
filters, scoring, top-N selection and serialization.  The `updated`
timestamp is an explicit parameter; `none` models the aborted run in
which no output file is written. -/
def run_screener (updated : String) (records : List SecurityRecord) : Option Output :=
  if records.length < TOP_N then none
  else some { updated := updated, universe_count := records.length,
              stocks := serializeStocks (topTable records) }

/-- A ten-record frozen universe used to exercise the pipeline on
concrete data: volatilities 10 … 19, all momenta and yields tied. -/
def demoRecs : List SecurityRecord :=
  [ { ticker := "AAA", name := "A", sector := "S", volatility := 10, momentum := 5, div_yield := 2 },
    { ticker := "BBB", name := "B", sector := "S", volatility := 11, momentum := 5, div_yield := 2 },
    { ticker := "CCC", name := "C", sector := "S", volatility := 12, momentum := 5, div_yield := 2 },
    { ticker := "DDD", name := "D", sector := "S", volatility := 13, momentum := 5, div_yield := 2 },
    { ticker := "EEE", name := "E", sector := "S", volatility := 14, momentum := 5, div_yield := 2 },
    { ticker := "FFF", name := "F", sector := "S", volatility := 15, momentum := 5, div_yield := 2 },
    { ticker := "GGG", name := "G", sector := "S", volatility := 16, momentum := 5, div_yield := 2 },
    { ticker := "HHH", name := "H", sector := "S", volatility := 17, momentum := 5, div_yield := 2 },
    { ticker := "III", name := "I", sector := "S", volatility := 18, momentum := 5, div_yield := 2 },
    { ticker := "JJJ", name := "J", sector := "S", volatility := 19, momentum := 5, div_yield := 2 } ]

/-- A single indexed row used as a concrete fixture. -/
def rowA : ℕ × SecurityRecord :=
  (0, { ticker := "AAA", name := "A", sector := "S", volatility := 10,
        momentum := 5, div_yield := 2 })

/-- The singleton table holding `rowA`. -/
def tableA : List (ℕ × SecurityRecord) := [rowA]

/-- A 220-observation constant price series. -/
def pricesK : List ℚ := List.replicate 220 2

/-- A 51-observation constant price series. -/
def pricesV : List ℚ := List.replicate 51 3

/-- A concrete fundamentals record accepted by the primary dividend-yield
strategy: rate 1, price 100, yield 1%. -/
def infoA : TickerInfo :=
  { trailingAnnualDividendRate := some 1, currentPrice := some 100,
    regularMarketPrice := none, trailingAnnualDividendYield := none }

/-- The fundamentals record of the spec scenario `annual_dividend = 5`,
`price = 10` (a computed 50 % yield), with provider yield fraction `y`. -/
def infoBad (y : ℚ) : TickerInfo :=
  { trailingAnnualDividendRate := some 5, currentPrice := some 10,
    regularMarketPrice := none, trailingAnnualDividendYield := some y }

/-- A five-record universe, smaller than `TOP_N`. -/
def smallRecs : List SecurityRecord :=
  [ { ticker := "AAA", name := "A", sector := "S", volatility := 10, momentum := 5, div_yield := 2 },
    { ticker := "BBB", name := "B", sector := "S", volatility := 11, momentum := 5, div_yield := 2 },
    { ticker := "CCC", name := "C", sector := "S", volatility := 12, momentum := 5, div_yield := 2 },
    { ticker := "DDD", name := "D", sector := "S", volatility := 13, momentum := 5, div_yield := 2 },
    { ticker := "EEE", name := "E", sector := "S", volatility := 14, momentum := 5, div_yield := 2 } ]

end Screener

namespace Screener

/-! ### Rounding lemmas -/

theorem floor_le_roundHE (x : ℚ) : ⌊x⌋ ≤ roundHE x := by
  simp only [roundHE]
  split
  · exact le_refl _
  · split
    · omega
    · split <;> omega

theorem roundHE_le_floor_add_one (x : ℚ) : roundHE x ≤ ⌊x⌋ + 1 := by
  simp only [roundHE]
  split
  · omega
  · split
    · omega
    · split <;> omega

theorem roundHE_nonneg (x : ℚ) (hx : 0 ≤ x) : 0 ≤ roundHE x := by
  have h1 : (0 : ℤ) ≤ ⌊x⌋ := Int.floor_nonneg.2 hx
  have h2 := floor_le_roundHE x
  omega

theorem round1_nonneg (x : ℚ) (hx : 0 ≤ x) : 0 ≤ round1 x := by
  unfold round1
  have h : 0 ≤ roundHE (x * 10) := roundHE_nonneg _ (by positivity)
  have h' : (0 : ℚ) ≤ ((roundHE (x * 10) : ℤ) : ℚ) := by exact_mod_cast h
  positivity

theorem round2_lt (x b : ℚ) (hx : x < b) : round2 x < b + 1/100 := by
  unfold round2
  have h1 : roundHE (x * 100) ≤ ⌊x * 100⌋ + 1 := roundHE_le_floor_add_one _
  have h2 : ((⌊x * 100⌋ : ℤ) : ℚ) ≤ x * 100 := Int.floor_le _
  have h3 : ((roundHE (x * 100) : ℤ) : ℚ) ≤ ((⌊x * 100⌋ : ℤ) : ℚ) + 1 := by exact_mod_cast h1
  linarith

/-! ### Insertion-sort lemmas -/

theorem mem_insertOrd {α : Type} (le : α → α → Bool) (x a : α) (l : List α) :
    x ∈ insertOrd le a l ↔ x = a ∨ x ∈ l := by
  induction l with
  | nil => simp [insertOrd]
  | cons b t ih =>
    simp only [insertOrd]
    split
    · simp
    · simp [ih]
      tauto

theorem insertOrd_perm {α : Type} (le : α → α → Bool) (a : α) (l : List α) :
    (insertOrd le a l).Perm (a :: l) := by
  induction l with
  | nil => simp [insertOrd]
  | cons b t ih =>
    simp only [insertOrd]
    split
    · exact List.Perm.refl _
    · exact (ih.cons b).trans (List.Perm.swap a b t)

theorem sortOrd_perm {α : Type} (le : α → α → Bool) (l : List α) :
    (sortOrd le l).Perm l := by
  induction l with
  | nil => exact List.Perm.refl _
  | cons a t ih =>
    exact (insertOrd_perm le a (sortOrd le t)).trans (ih.cons a)

theorem mem_sortOrd {α : Type} (le : α → α → Bool) (x : α) (l : List α) :
    x ∈ sortOrd le l ↔ x ∈ l :=
  (sortOrd_perm le l).mem_iff

theorem length_sortOrd {α : Type} (le : α → α → Bool) (l : List α) :
    (sortOrd le l).length = l.length :=
  (sortOrd_perm le l).length_eq

theorem pairwise_insertOrd {α : Type} (le : α → α → Bool) (R : α → α → Prop)
    (htot : ∀ a b, le a b = true ∨ le b a = true)
    (htrans : ∀ a b c, le a b = true → le b c = true → le a c = true)
    (x : α) (l : List α) (hl : l.Pairwise (SRel le R)) (hx : ∀ y ∈ l, R x y) :
    (insertOrd le x l).Pairwise (SRel le R) := by
  induction l with
  | nil => simp [insertOrd]
  | cons b t ih =>
    simp only [insertOrd]
    rcases List.pairwise_cons.1 hl with ⟨hb, ht⟩
    split
    case isTrue hxb =>
      refine List.pairwise_cons.2 ⟨?_, hl⟩
      intro y hy
      rcases List.mem_cons.1 hy with rfl | hyt
      · rcases Bool.eq_false_or_eq_true (le y x) with hbx | hbx
        · exact Or.inr ⟨hxb, hbx, hx y (List.mem_cons_self y t)⟩
        · exact Or.inl ⟨hxb, hbx⟩
      · have hby : le b y = true := by
          rcases hb y hyt with h | h
          · exact h.1
          · exact h.1
        have hxy : le x y = true := htrans x b y hxb hby
        rcases Bool.eq_false_or_eq_true (le y x) with hyx | hyx
        · exact Or.inr ⟨hxy, hyx, hx y (List.mem_cons_of_mem b hyt)⟩
        · exact Or.inl ⟨hxy, hyx⟩
    case isFalse hxb =>
      have hxb' : le x b = false := by
        rcases Bool.eq_false_or_eq_true (le x b) with h | h
        · exact absurd h hxb
        · exact h
      have hbx : le b x = true := by
        rcases htot x b with h | h
        · exact absurd h hxb
        · exact h
      refine List.pairwise_cons.2 ⟨?_, ?_⟩
      · intro y hy
        rcases (mem_insertOrd le y x t).1 hy with rfl | hyt
        · exact Or.inl ⟨hbx, hxb'⟩
        · exact hb y hyt
      · exact ih ht (fun y hy => hx y (List.mem_cons_of_mem b hy))

theorem pairwise_sortOrd {α : Type} (le : α → α → Bool) (R : α → α → Prop)
    (htot : ∀ a b, le a b = true ∨ le b a = true)
    (htrans : ∀ a b c, le a b = true → le b c = true → le a c = true)
    (l : List α) (hR : l.Pairwise R) :
    (sortOrd le l).Pairwise (SRel le R) := by
  induction l with
  | nil => simp [sortOrd]
  | cons a t ih =>
    rcases List.pairwise_cons.1 hR with ⟨ha, ht⟩
    exact pairwise_insertOrd le R htot htrans a (sortOrd le t) (ih ht)
      (fun y hy => ha y ((mem_sortOrd le y t).1 hy))

end Screener

namespace Screener

/-! ### List helpers -/

theorem exists_min_mem (xs : List ℚ) (h : xs ≠ []) : ∃ m ∈ xs, ∀ y ∈ xs, m ≤ y := by
  induction xs with
  | nil => exact absurd rfl h
  | cons a t ih =>
    cases t with
    | nil => exact ⟨a, by simp, by simp⟩
    | cons b u =>
      obtain ⟨m, hm, hmin⟩ := ih (by simp)
      by_cases hca : a ≤ m
      · refine ⟨a, List.mem_cons_self a _, ?_⟩
        intro y hy
        rcases List.mem_cons.1 hy with rfl | hy
        · exact le_refl _
        · exact le_trans hca (hmin y hy)
      · refine ⟨m, List.mem_cons_of_mem a hm, ?_⟩
        intro y hy
        rcases List.mem_cons.1 hy with rfl | hy
        · exact le_of_lt (lt_of_not_le hca)
        · exact hmin y hy

theorem exists_max_mem (xs : List ℚ) (h : xs ≠ []) : ∃ m ∈ xs, ∀ y ∈ xs, y ≤ m := by
  induction xs with
  | nil => exact absurd rfl h
  | cons a t ih =>
    cases t with
    | nil => exact ⟨a, by simp, by simp⟩
    | cons b u =>
      obtain ⟨m, hm, hmax⟩ := ih (by simp)
      by_cases hca : m ≤ a
      · refine ⟨a, List.mem_cons_self a _, ?_⟩
        intro y hy
        rcases List.mem_cons.1 hy with rfl | hy
        · exact le_refl _
        · exact le_trans (hmax y hy) hca
      · refine ⟨m, List.mem_cons_of_mem a hm, ?_⟩
        intro y hy
        rcases List.mem_cons.1 hy with rfl | hy
        · exact le_of_lt (lt_of_not_le hca)
        · exact hmax y hy

theorem getD_mem (l : List ℚ) (i : ℕ) (d : ℚ) (h : i < l.length) : l.getD i d ∈ l := by
  rw [List.getD_eq_getElem l d h]
  exact List.getElem_mem h

theorem countP_lt_add_countP_eq_le_length (xs : List ℚ) (x : ℚ) :
    xs.countP (fun y => decide (y < x)) + xs.countP (fun y => decide (y = x)) ≤ xs.length := by
  induction xs with
  | nil => simp
  | cons a t ih =>
    simp only [List.countP_cons, List.length_cons]
    by_cases h1 : a < x
    · have h2 : ¬ a = x := ne_of_lt h1
      simp [h1, h2]
      omega
    · by_cases h2 : a = x
      · simp [h1, h2]
        omega
      · simp [h1, h2]
        omega

theorem countP_gt_add_countP_eq_le_length (xs : List ℚ) (x : ℚ) :
    xs.countP (fun y => decide (x < y)) + xs.countP (fun y => decide (y = x)) ≤ xs.length := by
  induction xs with
  | nil => simp
  | cons a t ih =>
    simp only [List.countP_cons, List.length_cons]
    by_cases h1 : x < a
    · have h2 : ¬ a = x := fun he => absurd (he ▸ h1) (lt_irrefl x)
      simp [h1, h2]
      omega
    · by_cases h2 : a = x
      · simp [h1, h2]
        omega
      · simp [h1, h2]
        omega

theorem rankAsc_bounds (xs : List ℚ) (x : ℚ) (hx : x ∈ xs) :
    1 ≤ rankAsc xs x ∧ rankAsc xs x ≤ (xs.length : ℚ) := by
  unfold rankAsc
  have he : 0 < xs.countP (fun y => decide (y = x)) := by
    rw [List.countP_pos_iff]
    exact ⟨x, hx, by simp⟩
  have hle := countP_lt_add_countP_eq_le_length xs x
  have he' : (1 : ℚ) ≤ (xs.countP (fun y => decide (y = x)) : ℚ) := by exact_mod_cast he
  have hlt' : (0 : ℚ) ≤ (xs.countP (fun y => decide (y < x)) : ℚ) := by positivity
  have hle' : (xs.countP (fun y => decide (y < x)) : ℚ) +
      (xs.countP (fun y => decide (y = x)) : ℚ) ≤ (xs.length : ℚ) := by exact_mod_cast hle
  constructor
  · linarith
  · linarith

theorem rankDesc_bounds (xs : List ℚ) (x : ℚ) (hx : x ∈ xs) :
    1 ≤ rankDesc xs x ∧ rankDesc xs x ≤ (xs.length : ℚ) := by
  unfold rankDesc
  have he : 0 < xs.countP (fun y => decide (y = x)) := by
    rw [List.countP_pos_iff]
    exact ⟨x, hx, by simp⟩
  have hle := countP_gt_add_countP_eq_le_length xs x
  have he' : (1 : ℚ) ≤ (xs.countP (fun y => decide (y = x)) : ℚ) := by exact_mod_cast he
  have hlt' : (0 : ℚ) ≤ (xs.countP (fun y => decide (x < y)) : ℚ) := by positivity
  have hle' : (xs.countP (fun y => decide (x < y)) : ℚ) +
      (xs.countP (fun y => decide (y = x)) : ℚ) ≤ (xs.length : ℚ) := by exact_mod_cast hle
  constructor
  · linarith
  · linarith

theorem le_fst_of_mem_enumFrom {α : Type} (n : ℕ) (l : List α) (p : ℕ × α)
    (h : p ∈ List.enumFrom n l) : n ≤ p.1 := by
  induction l generalizing n with
  | nil => simp [List.enumFrom] at h
  | cons a t ih =>
    rcases List.mem_cons.1 h with rfl | h
    · exact le_refl _
    · exact le_trans (Nat.le_succ n) (ih (n + 1) h)

theorem pairwise_fst_lt_enumFrom {α : Type} (n : ℕ) (l : List α) :
    (List.enumFrom n l).Pairwise (fun a b => a.1 < b.1) := by
  induction l generalizing n with
  | nil => simp [List.enumFrom]
  | cons a t ih =>
    refine List.pairwise_cons.2 ⟨?_, ih (n + 1)⟩
    intro p hp
    exact lt_of_lt_of_le (Nat.lt_succ_self n) (le_fst_of_mem_enumFrom (n + 1) t p hp)

theorem pairwise_fst_lt_enum {α : Type} (l : List α) :
    l.enum.Pairwise (fun a b => a.1 < b.1) :=
  pairwise_fst_lt_enumFrom 0 l

theorem enumFrom_map_fst_succ {α : Type} (n : ℕ) (l : List α) :
    (List.enumFrom n l).map (fun p => p.1 + 1) = List.range' (n + 1) l.length := by
  induction l generalizing n with
  | nil => simp [List.enumFrom]
  | cons a t ih =>
    simp only [List.enumFrom, List.map_cons, List.length_cons, List.range'_succ]
    exact congrArg _ (ih (n + 1))

end Screener

namespace Screener

/-! ### Quantile bounds -/

theorem quantile_bounds (q : ℚ) (xs : List ℚ) (hq0 : 0 ≤ q) (hq1 : q ≤ 1)
    (hne : xs ≠ []) (m M : ℚ) (hm : ∀ y ∈ xs, m ≤ y) (hM : ∀ y ∈ xs, y ≤ M) :
    m ≤ quantile q xs ∧ quantile q xs ≤ M := by
  simp only [quantile]
  set s := sortOrd qle xs with hs
  have hlen : s.length = xs.length := length_sortOrd qle xs
  have hpos : 0 < s.length := by
    rw [hlen]
    exact List.length_pos.2 hne
  have hmem : ∀ y ∈ s, m ≤ y ∧ y ≤ M := by
    intro y hy
    have hy' : y ∈ xs := (mem_sortOrd qle y xs).1 hy
    exact ⟨hm y hy', hM y hy'⟩
  set h := q * ((s.length : ℚ) - 1) with hh
  have hn1 : (1 : ℚ) ≤ (s.length : ℚ) := by exact_mod_cast hpos
  have hh0 : 0 ≤ h := by
    have : (0 : ℚ) ≤ (s.length : ℚ) - 1 := by linarith
    exact mul_nonneg hq0 this
  have hhub : h ≤ (s.length : ℚ) - 1 := by
    have h1 : (0 : ℚ) ≤ (s.length : ℚ) - 1 := by linarith
    nlinarith
  have hfl0 : 0 ≤ ⌊h⌋ := Int.floor_nonneg.2 hh0
  have hicast : ((⌊h⌋.toNat : ℕ) : ℚ) = ((⌊h⌋ : ℤ) : ℚ) := by
    exact_mod_cast Int.toNat_of_nonneg hfl0
  have hilt : ⌊h⌋.toNat < s.length := by
    have h1 : ⌊h⌋ ≤ ⌊(s.length : ℚ) - 1⌋ := Int.floor_le_floor hhub
    have h2 : ((s.length : ℚ) - 1) = (((s.length : ℤ) - 1 : ℤ) : ℚ) := by push_cast; ring
    rw [h2, Int.floor_intCast] at h1
    omega
  have hγ0 : 0 ≤ h - ((⌊h⌋.toNat : ℕ) : ℚ) := by
    rw [hicast]
    have := Int.floor_le h
    linarith
  have hγ1 : h - ((⌊h⌋.toNat : ℕ) : ℚ) ≤ 1 := by
    rw [hicast]
    have := Int.lt_floor_add_one h
    linarith
  have hlo : m ≤ s.getD ⌊h⌋.toNat 0 ∧ s.getD ⌊h⌋.toNat 0 ≤ M :=
    hmem _ (getD_mem s ⌊h⌋.toNat 0 hilt)
  by_cases hi1 : ⌊h⌋.toNat + 1 < s.length
  · have hhi : m ≤ s.getD (⌊h⌋.toNat + 1) (s.getD ⌊h⌋.toNat 0) ∧
        s.getD (⌊h⌋.toNat + 1) (s.getD ⌊h⌋.toNat 0) ≤ M :=
      hmem _ (getD_mem s (⌊h⌋.toNat + 1) _ hi1)
    constructor
    · nlinarith [hlo.1, hlo.2, hhi.1, hhi.2]
    · nlinarith [hlo.1, hlo.2, hhi.1, hhi.2]
  · have hdef : s.getD (⌊h⌋.toNat + 1) (s.getD ⌊h⌋.toNat 0) = s.getD ⌊h⌋.toNat 0 :=
      List.getD_eq_default s _ (by omega)
    rw [hdef]
    constructor
    · nlinarith [hlo.1, hlo.2]
    · nlinarith [hlo.1, hlo.2]

theorem exists_le_quantile (q : ℚ) (xs : List ℚ) (hq0 : 0 ≤ q) (hq1 : q ≤ 1)
    (hne : xs ≠ []) : ∃ a ∈ xs, a ≤ quantile q xs := by
  obtain ⟨m, hm, hmin⟩ := exists_min_mem xs hne
  obtain ⟨M, hMm, hmax⟩ := exists_max_mem xs hne
  exact ⟨m, hm, (quantile_bounds q xs hq0 hq1 hne m M hmin hmax).1⟩

theorem exists_quantile_le (q : ℚ) (xs : List ℚ) (hq0 : 0 ≤ q) (hq1 : q ≤ 1)
    (hne : xs ≠ []) : ∃ a ∈ xs, quantile q xs ≤ a := by
  obtain ⟨m, hm, hmin⟩ := exists_min_mem xs hne
  obtain ⟨M, hMm, hmax⟩ := exists_max_mem xs hne
  exact ⟨M, hMm, (quantile_bounds q xs hq0 hq1 hne m M hmin hmax).2⟩

end Screener

namespace Screener

/-! ### Pipeline helper lemmas -/

theorem volFilter_ne_nil (rows : List (ℕ × SecurityRecord)) (h : rows ≠ []) :
    volFilter rows ≠ [] := by
  simp only [volFilter]
  have hmapne : rows.map (fun r => r.2.volatility) ≠ [] := by
    simpa using h
  obtain ⟨a, ha, hle⟩ := exists_le_quantile VOLATILITY_PERCENTILE
    (rows.map (fun r => r.2.volatility)) (by norm_num [VOLATILITY_PERCENTILE])
    (by norm_num [VOLATILITY_PERCENTILE]) hmapne
  obtain ⟨r, hr, hra⟩ := List.mem_map.1 ha
  have hrf : r ∈ rows.filter (fun r => decide (r.2.volatility ≤
      quantile VOLATILITY_PERCENTILE (rows.map (fun r => r.2.volatility)))) := by
    rw [List.mem_filter]
    exact ⟨hr, by simp [hra ▸ hle]⟩
  exact List.ne_nil_of_mem hrf

theorem momFilter_ne_nil (rows : List (ℕ × SecurityRecord)) (h : rows ≠ []) :
    momFilter rows ≠ [] := by
  simp only [momFilter]
  have hmapne : rows.map (fun r => r.2.momentum) ≠ [] := by
    simpa using h
  obtain ⟨a, ha, hle⟩ := exists_quantile_le MOMENTUM_CUTOFF
    (rows.map (fun r => r.2.momentum)) (by norm_num [MOMENTUM_CUTOFF])
    (by norm_num [MOMENTUM_CUTOFF]) hmapne
  obtain ⟨r, hr, hra⟩ := List.mem_map.1 ha
  have hrf : r ∈ rows.filter (fun r => decide (
      quantile MOMENTUM_CUTOFF (rows.map (fun r => r.2.momentum)) ≤ r.2.momentum)) := by
    rw [List.mem_filter]
    exact ⟨hr, by simp [hra ▸ hle]⟩
  exact List.ne_nil_of_mem hrf

theorem filteredTable_ne_nil (recs : List SecurityRecord) (h : recs ≠ []) :
    filteredTable recs ≠ [] := by
  unfold filteredTable
  apply momFilter_ne_nil
  apply volFilter_ne_nil
  simpa using h

theorem volFilter_pairwise_idx (rows : List (ℕ × SecurityRecord))
    (h : rows.Pairwise (fun a b => a.1 < b.1)) :
    (volFilter rows).Pairwise (fun a b => a.1 < b.1) := by
  simp only [volFilter]
  exact h.sublist (List.filter_sublist rows)

theorem momFilter_pairwise_idx (rows : List (ℕ × SecurityRecord))
    (h : rows.Pairwise (fun a b => a.1 < b.1)) :
    (momFilter rows).Pairwise (fun a b => a.1 < b.1) := by
  simp only [momFilter]
  exact h.sublist (List.filter_sublist rows)

theorem scoreRow_idx (rows : List (ℕ × SecurityRecord)) (r : ℕ × SecurityRecord) :
    (scoreRow rows r).idx = r.1 := rfl

theorem scoreRows_pairwise_idx (rows : List (ℕ × SecurityRecord))
    (h : rows.Pairwise (fun a b => a.1 < b.1)) :
    (scoreRows rows).Pairwise (fun a b => a.idx < b.idx) := by
  unfold scoreRows
  rw [List.pairwise_map]
  simpa [scoreRow_idx] using h

theorem rankedTable_pairwise_idx (recs : List SecurityRecord) :
    (rankedTable recs).Pairwise (fun a b => a.idx < b.idx) := by
  unfold rankedTable filteredTable
  exact scoreRows_pairwise_idx _
    (momFilter_pairwise_idx _ (volFilter_pairwise_idx _ (pairwise_fst_lt_enum recs)))

theorem scoreGe_total (a b : Scored) : scoreGe a b = true ∨ scoreGe b a = true := by
  simp only [scoreGe, decide_eq_true_eq]
  exact le_total b.score a.score

theorem scoreGe_trans (a b c : Scored) (h1 : scoreGe a b = true) (h2 : scoreGe b c = true) :
    scoreGe a c = true := by
  simp only [scoreGe, decide_eq_true_eq] at *
  exact le_trans h2 h1

theorem srel_scoreGe_iff (a b : Scored) :
    SRel scoreGe (fun a b => a.idx < b.idx) a b ↔
      (b.score < a.score ∨ (b.score = a.score ∧ a.idx < b.idx)) := by
  simp only [SRel, scoreGe, decide_eq_true_eq, decide_eq_false_iff_not]
  constructor
  · intro h
    rcases h with ⟨h1, h2⟩ | ⟨h1, h2, h3⟩
    · exact Or.inl (lt_of_le_not_le h1 h2)
    · exact Or.inr ⟨le_antisymm h1 h2, h3⟩
  · intro h
    rcases h with h | ⟨h1, h2⟩
    · exact Or.inl ⟨le_of_lt h, not_le_of_lt h⟩
    · exact Or.inr ⟨le_of_eq h1, le_of_eq h1.symm, h2⟩

theorem sortedByScore_pairwise (recs : List SecurityRecord) :
    (sortedByScore recs).Pairwise
      (fun a b => b.score < a.score ∨ (b.score = a.score ∧ a.idx < b.idx)) := by
  have h := pairwise_sortOrd scoreGe (fun a b => a.idx < b.idx) scoreGe_total scoreGe_trans
    (rankedTable recs) (rankedTable_pairwise_idx recs)
  unfold sortedByScore
  exact h.imp (fun hab => (srel_scoreGe_iff _ _).1 hab)

theorem normRank_bounds (rk n : ℚ) (h1 : 1 ≤ rk) (h2 : rk ≤ n) :
    0 < rk / n * 100 ∧ rk / n * 100 ≤ 100 := by
  have hn : (0 : ℚ) < n := lt_of_lt_of_le one_pos (le_trans h1 h2)
  constructor
  · have : 0 < rk / n := div_pos (lt_of_lt_of_le one_pos h1) hn
    linarith
  · have : rk / n ≤ 1 := (div_le_one hn).2 h2
    linarith

theorem mem_scoreRows (rows : List (ℕ × SecurityRecord)) (s : Scored) :
    s ∈ scoreRows rows ↔ ∃ r ∈ rows, scoreRow rows r = s := by
  unfold scoreRows
  exact List.mem_map

theorem scoreRow_rank_vol (rows : List (ℕ × SecurityRecord)) (r : ℕ × SecurityRecord) :
    (scoreRow rows r).rank_vol =
      rankAsc (rows.map (fun x => x.2.volatility)) r.2.volatility / (rows.length : ℚ) * 100 := rfl

theorem scoreRow_rank_mom (rows : List (ℕ × SecurityRecord)) (r : ℕ × SecurityRecord) :
    (scoreRow rows r).rank_mom =
      rankDesc (rows.map (fun x => x.2.momentum)) r.2.momentum / (rows.length : ℚ) * 100 := rfl

theorem scoreRow_rank_yild (rows : List (ℕ × SecurityRecord)) (r : ℕ × SecurityRecord) :
    (scoreRow rows r).rank_yild =
      rankDesc (rows.map (fun x => x.2.div_yield)) r.2.div_yield / (rows.length : ℚ) * 100 := rfl

theorem scoreRow_score (rows : List (ℕ × SecurityRecord)) (r : ℕ × SecurityRecord) :
    (scoreRow rows r).score =
      round1 ((100 - (scoreRow rows r).rank_vol) * W_VOL +
        (100 - (scoreRow rows r).rank_mom) * W_MOM +
        (100 - (scoreRow rows r).rank_yild) * W_YILD) := rfl

theorem scoreRows_rank_bounds (rows : List (ℕ × SecurityRecord)) (s : Scored)
    (hs : s ∈ scoreRows rows) :
    (0 < s.rank_vol ∧ s.rank_vol ≤ 100) ∧ (0 < s.rank_mom ∧ s.rank_mom ≤ 100) ∧
      (0 < s.rank_yild ∧ s.rank_yild ≤ 100) := by
  obtain ⟨r, hr, rfl⟩ := (mem_scoreRows rows s).1 hs
  have hvmem : r.2.volatility ∈ rows.map (fun x => x.2.volatility) :=
    List.mem_map_of_mem _ hr
  have hmmem : r.2.momentum ∈ rows.map (fun x => x.2.momentum) :=
    List.mem_map_of_mem _ hr
  have hymem : r.2.div_yield ∈ rows.map (fun x => x.2.div_yield) :=
    List.mem_map_of_mem _ hr
  have hlen : ∀ f : ℕ × SecurityRecord → ℚ, ((rows.map f).length : ℚ) = (rows.length : ℚ) := by
    intro f
    simp
  have hv := rankAsc_bounds _ _ hvmem
  have hm := rankDesc_bounds _ _ hmmem
  have hy := rankDesc_bounds _ _ hymem
  rw [hlen] at hv hm hy
  refine ⟨?_, ?_, ?_⟩
  · rw [scoreRow_rank_vol]
    exact normRank_bounds _ _ hv.1 hv.2
  · rw [scoreRow_rank_mom]
    exact normRank_bounds _ _ hm.1 hm.2
  · rw [scoreRow_rank_yild]
    exact normRank_bounds _ _ hy.1 hy.2

theorem scoreExpr_bounds (rv rm ry : ℚ) (hv : 0 < rv ∧ rv ≤ 100)
    (hm : 0 < rm ∧ rm ≤ 100) (hy : 0 < ry ∧ ry ≤ 100) :
    0 ≤ (100 - rv) * W_VOL + (100 - rm) * W_MOM + (100 - ry) * W_YILD ∧
      (100 - rv) * W_VOL + (100 - rm) * W_MOM + (100 - ry) * W_YILD ≤ 100 := by
  unfold W_VOL W_MOM W_YILD
  constructor
  · nlinarith [hv.1, hv.2, hm.1, hm.2, hy.1, hy.2]
  · nlinarith [hv.1, hv.2, hm.1, hm.2, hy.1, hy.2]

theorem scoreRows_score_nonneg (rows : List (ℕ × SecurityRecord)) (s : Scored)
    (hs : s ∈ scoreRows rows) : 0 ≤ s.score := by
  obtain ⟨hv, hm, hy⟩ := scoreRows_rank_bounds rows s hs
  obtain ⟨r, hr, rfl⟩ := (mem_scoreRows rows s).1 hs
  rw [scoreRow_score]
  exact round1_nonneg _ (scoreExpr_bounds _ _ _ hv hm hy).1

end Screener

namespace Screener

/-! ### Serialization helpers -/

theorem serializeStocks_length (l : List Scored) :
    (serializeStocks l).length = l.length := by
  unfold serializeStocks
  rw [List.length_map, List.enum_length]

theorem serializeStocks_map_score (l : List Scored) :
    (serializeStocks l).map (fun s => s.score) = l.map (fun s => pyInt s.score) := by
  unfold serializeStocks
  rw [List.map_map]
  conv_rhs => rw [← List.enum_map_snd l, List.map_map]
  rfl

theorem serializeStocks_map_rank (l : List Scored) :
    (serializeStocks l).map (fun s => s.rank) = List.range' 1 l.length := by
  unfold serializeStocks
  rw [List.map_map]
  have h := enumFrom_map_fst_succ 0 l
  simpa using h

theorem topTable_length (recs : List SecurityRecord) :
    (topTable recs).length = min TOP_N (rankedTable recs).length := by
  unfold topTable
  rw [List.length_take]
  unfold sortedByScore
  rw [length_sortOrd]

theorem mem_topTable_ranked (recs : List SecurityRecord) (r : Scored)
    (h : r ∈ topTable recs) : r ∈ rankedTable recs := by
  unfold topTable at h
  have h2 : r ∈ sortedByScore recs := (List.take_sublist _ _).mem h
  unfold sortedByScore at h2
  exact (mem_sortOrd _ _ _).1 h2

end Screener

namespace Screener

/-! ### Claim theorems -/

/-- C2: whenever the count of valid records is smaller than `TOP_N`, the
run aborts: `run_screener` returns `none` (no output artifact is
produced), without crashing. -/
theorem c2_small_universe_aborts (t : String) (recs : List SecurityRecord)
    (h : recs.length < TOP_N) : run_screener t recs = none := by
  unfold run_screener
  rw [if_pos h]

/-- Witness for C2: a universe of five valid records with `TOP_N = 10`
aborts the run and writes nothing. -/
theorem c2_small_universe_aborts_witness :
    smallRecs.length < TOP_N ∧ run_screener "2025-01-01T00:00:00Z" smallRecs = none :=
  ⟨by decide, c2_small_universe_aborts _ smallRecs (by decide)⟩

/-- C6: every record retained by the volatility filter has volatility at
most the `VOLATILITY_PERCENTILE` linear-interpolation quantile of the
volatilities of the pre-filter set, so the maximum retained volatility
never exceeds that quantile. -/
theorem c6_vol_filter_le_quantile (rows : List (ℕ × SecurityRecord))
    (r : ℕ × SecurityRecord) (h : r ∈ volFilter rows) :
    r.2.volatility ≤ quantile VOLATILITY_PERCENTILE (rows.map (fun x => x.2.volatility)) := by
  simp only [volFilter] at h
  rw [List.mem_filter] at h
  simpa using h.2

/-- Witness for C6 on the singleton table `tableA`. -/
theorem c6_vol_filter_le_quantile_witness :
    (rowA ∈ volFilter tableA) ∧
    rowA.2.volatility ≤ quantile VOLATILITY_PERCENTILE (tableA.map (fun x => x.2.volatility)) := by
  have hm : rowA ∈ volFilter tableA := by
    simp [volFilter, List.mem_filter, quantile, sortOrd, insertOrd, qle, tableA, rowA,
      VOLATILITY_PERCENTILE]
  exact ⟨hm, c6_vol_filter_le_quantile _ _ hm⟩

/-- C7: after rank normalization over a table of size `n`, each of
`rank_vol`, `rank_mom`, `rank_yild` lies in `(0, 100]`, the three weights
sum to 1, and the unrounded composite score
`(100 − rank_vol)·W_VOL + (100 − rank_mom)·W_MOM + (100 − rank_yild)·W_YILD`
lies in `[0, 100]`. -/
theorem c7_rank_and_score_bounds (rows : List (ℕ × SecurityRecord)) (s : Scored)
    (hs : s ∈ scoreRows rows) :
    (0 < s.rank_vol ∧ s.rank_vol ≤ 100) ∧
    (0 < s.rank_mom ∧ s.rank_mom ≤ 100) ∧
    (0 < s.rank_yild ∧ s.rank_yild ≤ 100) ∧
    W_VOL + W_MOM + W_YILD = 1 ∧
    0 ≤ (100 - s.rank_vol) * W_VOL + (100 - s.rank_mom) * W_MOM + (100 - s.rank_yild) * W_YILD ∧
    (100 - s.rank_vol) * W_VOL + (100 - s.rank_mom) * W_MOM + (100 - s.rank_yild) * W_YILD ≤ 100 := by
  obtain ⟨hv, hm, hy⟩ := scoreRows_rank_bounds rows s hs
  have hb := scoreExpr_bounds _ _ _ hv hm hy
  exact ⟨hv, hm, hy, by norm_num [W_VOL, W_MOM, W_YILD], hb.1, hb.2⟩

/-- Witness for C7 on the singleton table `tableA`. -/
theorem c7_rank_and_score_bounds_witness :
    (scoreRow tableA rowA ∈ scoreRows tableA) ∧
    ((0 < (scoreRow tableA rowA).rank_vol ∧ (scoreRow tableA rowA).rank_vol ≤ 100) ∧
    (0 < (scoreRow tableA rowA).rank_mom ∧ (scoreRow tableA rowA).rank_mom ≤ 100) ∧
    (0 < (scoreRow tableA rowA).rank_yild ∧ (scoreRow tableA rowA).rank_yild ≤ 100) ∧
    W_VOL + W_MOM + W_YILD = 1 ∧
    0 ≤ (100 - (scoreRow tableA rowA).rank_vol) * W_VOL +
      (100 - (scoreRow tableA rowA).rank_mom) * W_MOM +
      (100 - (scoreRow tableA rowA).rank_yild) * W_YILD ∧
    (100 - (scoreRow tableA rowA).rank_vol) * W_VOL +
      (100 - (scoreRow tableA rowA).rank_mom) * W_MOM +
      (100 - (scoreRow tableA rowA).rank_yild) * W_YILD ≤ 100) := by
  have hm : scoreRow tableA rowA ∈ scoreRows tableA := by
    simp [scoreRows, tableA]
  exact ⟨hm, c7_rank_and_score_bounds _ _ hm⟩

/-- C9: whenever the pipeline reaches rank normalization (the universe
guard passed), the volatility filter leaves a nonempty table and the
doubly filtered table is nonempty, so the rank-normalization divisor `n`
is positive and no stage divides by zero. -/
theorem c9_rank_divisor_positive (recs : List SecurityRecord) (h : TOP_N ≤ recs.length) :
    volFilter recs.enum ≠ [] ∧ 0 < (filteredTable recs).length := by
  have hne : recs ≠ [] := by
    intro he
    rw [he] at h
    simp [TOP_N] at h
  have henum : recs.enum ≠ [] := by
    intro he
    have h2 := congrArg List.length he
    rw [List.enum_length] at h2
    exact hne (List.length_eq_zero.1 h2)
  refine ⟨volFilter_ne_nil _ henum, ?_⟩
  exact List.length_pos.2 (filteredTable_ne_nil recs hne)

/-- Witness for C9 on the ten-record demo universe. -/
theorem c9_rank_divisor_positive_witness :
    TOP_N ≤ demoRecs.length ∧
    (volFilter demoRecs.enum ≠ [] ∧ 0 < (filteredTable demoRecs).length) :=
  ⟨by decide, c9_rank_divisor_positive demoRecs (by decide)⟩

/-- C10: the pipeline is a deterministic function of its input records —
two runs over the same frozen records produce the same `stocks` array and
the same `universe_count`, whatever the run timestamps are (the
timestamp field is the only run-dependent part of the artifact). -/
theorem c10_deterministic_pipeline (t1 t2 : String) (recs : List SecurityRecord) :
    (run_screener t1 recs).map (fun o => o.stocks) =
      (run_screener t2 recs).map (fun o => o.stocks) ∧
    (run_screener t1 recs).map (fun o => o.universe_count) =
      (run_screener t2 recs).map (fun o => o.universe_count) := by
  unfold run_screener
  split <;> simp

end Screener

namespace Screener

/-- C4: momentum is `none` exactly when fewer than 220 observations are
available or the oldest price is zero, and otherwise equals
`(p_1m / p_12m − 1) · 100` with `p_12m` the price at index 0 and `p_1m`
the price at position `length − 21` (Python `iloc[-21]`). -/
theorem c4_momentum_formula (prices qs : List ℚ) (h1 : 220 ≤ prices.length)
    (h2 : prices.headD 0 ≠ 0) :
    calculate_momentum prices =
      some ((prices.getD (prices.length - 21) 0 / prices.headD 0 - 1) * 100) ∧
    (calculate_momentum qs = none ↔ qs.length < 220 ∨ qs.headD 0 = 0) := by
  constructor
  · simp only [calculate_momentum]
    rw [if_neg (not_lt.2 h1), if_neg h2]
  · simp only [calculate_momentum]
    by_cases hq : qs.length < 220
    · simp [hq]
    · rw [if_neg hq]
      by_cases hh : qs.headD 0 = 0
      · simp [hh, hq]
      · simp [hh, hq]

/-- Witness for C4: a 220-day constant price series of price 2, and the
empty series for the missing case. -/
theorem c4_momentum_formula_witness :
    220 ≤ pricesK.length ∧ pricesK.headD 0 ≠ 0 ∧
    (calculate_momentum pricesK =
      some ((pricesK.getD (pricesK.length - 21) 0 / pricesK.headD 0 - 1) * 100) ∧
    (calculate_momentum ([] : List ℚ) = none ↔
      ([] : List ℚ).length < 220 ∨ ([] : List ℚ).headD 0 = 0)) := by
  have hlen : 220 ≤ pricesK.length := by norm_num [pricesK]
  have hhd : pricesK.headD 0 ≠ 0 := by
    have he : pricesK = 2 :: List.replicate 219 2 := rfl
    rw [he]
    norm_num
  exact ⟨hlen, hhd, c4_momentum_formula pricesK [] hlen hhd⟩

end Screener

namespace Screener

/-- C5: the dividend yield uses `div_rate/price*100` only when that value
lies strictly inside `(0, 20)`; the computed 50 % yield of `infoBad`
(rate 5, price 10) is rejected and falls through to the provider yield
fraction, accepted on `(0, 0.20)` and scaled to a rounded percentage,
else 0; in particular the result for rate 5, price 10 is never 50. -/
theorem c5_div_yield_sanity (info : TickerInfo) (d p y : ℚ)
    (hrate : info.trailingAnnualDividendRate = some d)
    (hprice : pyOr info.currentPrice info.regularMarketPrice = some p)
    (hd : 0 < d) (hp : 0 < p) (hlo : 0 < d / p * 100) (hhi : d / p * 100 < 20) :
    get_div_yield info = round2 (d / p * 100) ∧
    get_div_yield (infoBad y) = (if 0 < y ∧ y < 1/5 then round2 (y * 100) else 0) ∧
    get_div_yield (infoBad y) ≠ 50 := by
  have hfall : get_div_yield (infoBad y) =
      (if 0 < y ∧ y < 1/5 then round2 (y * 100) else 0) := by
    have hpy : pyOr (some 10) none = some 10 := by
      simp [pyOr, truthy]
    simp only [get_div_yield, infoBad, hpy]
    rw [if_pos (by norm_num), if_neg (by norm_num)]
    show (if y ≠ 0 ∧ 0 < y ∧ y < 1 / 5 then round2 (y * 100) else 0) =
      (if 0 < y ∧ y < 1 / 5 then round2 (y * 100) else 0)
    by_cases hy : 0 < y ∧ y < 1/5
    · rw [if_pos ⟨ne_of_gt hy.1, hy.1, hy.2⟩, if_pos hy]
    · rw [if_neg ?_, if_neg hy]
      intro hcon
      exact hy ⟨hcon.2.1, hcon.2.2⟩
  refine ⟨?_, hfall, ?_⟩
  · simp only [get_div_yield, hrate, hprice]
    rw [if_pos ⟨ne_of_gt hd, ne_of_gt hp, hp, hd⟩, if_pos ⟨hlo, hhi⟩]
  · rw [hfall]
    split_ifs with hy
    · have hb : round2 (y * 100) < 20 + 1/100 := round2_lt (y * 100) 20 (by linarith [hy.2])
      intro he
      rw [he] at hb
      norm_num at hb
    · norm_num

/-- Witness for C5: `infoA` (rate 1, price 100) is accepted by the
primary strategy; `infoBad` with provider fraction 0.10 falls back. -/
theorem c5_div_yield_sanity_witness :
    infoA.trailingAnnualDividendRate = some 1 ∧
    pyOr infoA.currentPrice infoA.regularMarketPrice = some 100 ∧
    (0 : ℚ) < 1 ∧ (0 : ℚ) < 100 ∧ (0 : ℚ) < (1 : ℚ) / 100 * 100 ∧ (1 : ℚ) / 100 * 100 < 20 ∧
    (get_div_yield infoA = round2 ((1 : ℚ) / 100 * 100) ∧
    get_div_yield (infoBad (1/10)) =
      (if 0 < (1/10 : ℚ) ∧ (1/10 : ℚ) < 1/5 then round2 ((1/10 : ℚ) * 100) else 0) ∧
    get_div_yield (infoBad (1/10)) ≠ 50) := by
  have h1 : infoA.trailingAnnualDividendRate = some 1 := rfl
  have h2 : pyOr infoA.currentPrice infoA.regularMarketPrice = some 100 := by
    simp [infoA, pyOr, truthy]
  have h3 : (0 : ℚ) < 1 := by norm_num
  have h4 : (0 : ℚ) < 100 := by norm_num
  have h5 : (0 : ℚ) < (1 : ℚ) / 100 * 100 := by norm_num
  have h6 : (1 : ℚ) / 100 * 100 < 20 := by norm_num
  exact ⟨h1, h2, h3, h4, h5, h6, c5_div_yield_sanity infoA 1 100 (1/10) h1 h2 h3 h4 h5 h6⟩


end Screener

namespace Screener

theorem zip_replicate_min {α β : Type} (m n : ℕ) (a : α) (b : β) :
    (List.replicate m a).zip (List.replicate n b) = List.replicate (min m n) (a, b) := by
  induction m generalizing n with
  | zero => simp
  | succ k ih =>
    cases n with
    | zero => simp
    | succ j => simp [List.replicate_succ, ih, Nat.succ_min_succ]

theorem dailyReturns_replicate (k : ℕ) (c : ℚ) (hc : c ≠ 0) :
    dailyReturns (List.replicate k c) = List.replicate (k - 1) 0 := by
  unfold dailyReturns
  have ht : (List.replicate k c).tail = List.replicate (k - 1) c := by
    simp [List.tail_replicate]
  rw [ht, zip_replicate_min]
  have hmin : min k (k - 1) = k - 1 := by omega
  rw [hmin, List.map_replicate]
  simp [div_self hc]

theorem sampleVar_replicate_zero (m : ℕ) : sampleVar (List.replicate m 0) = 0 := by
  simp [sampleVar, List.map_replicate, List.sum_replicate]

theorem dailyReturns_length (l : List ℚ) : (dailyReturns l).length = l.length - 1 := by
  simp [dailyReturns, List.length_zip, List.length_tail]

/-- C3: volatility is `none` exactly when fewer than 50 daily returns
remain after dropping the undefined first return (the return count is
`length − 1`), otherwise it is the sample standard deviation (N−1
denominator) of the daily returns times `sqrt 252` times 100; on a
constant positive price series of 51 or more observations it is 0. -/
theorem c3_volatility_char (ps qs : List ℚ) (c : ℚ) (k : ℕ)
    (h50 : 50 ≤ (dailyReturns ps).length) (hc : 0 < c) (hk : 51 ≤ k) :
    calculate_volatility ps =
      some (Real.sqrt ((sampleVar (dailyReturns ps) : ℚ) : ℝ) * Real.sqrt 252 * 100) ∧
    (dailyReturns qs).length = qs.length - 1 ∧
    (calculate_volatility qs = none ↔ qs.length - 1 < 50) ∧
    calculate_volatility (List.replicate k c) = some 0 := by
  refine ⟨?_, dailyReturns_length qs, ?_, ?_⟩
  · simp only [calculate_volatility]
    rw [if_neg (not_lt.2 h50)]
  · by_cases hq : (dailyReturns qs).length < 50
    · simp only [calculate_volatility]
      rw [if_pos hq]
      rw [dailyReturns_length qs] at hq
      simp [hq]
    · simp only [calculate_volatility]
      rw [if_neg hq]
      rw [dailyReturns_length qs] at hq
      simp [hq]
  · have hd : dailyReturns (List.replicate k c) = List.replicate (k - 1) 0 :=
      dailyReturns_replicate k c (ne_of_gt hc)
    simp only [calculate_volatility, hd]
    rw [if_neg (by simp [List.length_replicate]; omega)]
    rw [sampleVar_replicate_zero]
    norm_num

/-- Witness for C3: the 51-observation constant series `pricesV` has 50
returns and zero volatility; the empty series is missing. -/
theorem c3_volatility_char_witness :
    50 ≤ (dailyReturns pricesV).length ∧ (0 : ℚ) < 1 ∧ 51 ≤ 60 ∧
    (calculate_volatility pricesV =
      some (Real.sqrt ((sampleVar (dailyReturns pricesV) : ℚ) : ℝ) * Real.sqrt 252 * 100) ∧
    (dailyReturns ([] : List ℚ)).length = ([] : List ℚ).length - 1 ∧
    (calculate_volatility ([] : List ℚ) = none ↔ ([] : List ℚ).length - 1 < 50) ∧
    calculate_volatility (List.replicate 60 (1 : ℚ)) = some 0) := by
  have h50 : 50 ≤ (dailyReturns pricesV).length := by
    rw [dailyReturns_length]
    norm_num [pricesV]
  exact ⟨h50, by norm_num, by norm_num,
    c3_volatility_char pricesV [] 1 60 h50 (by norm_num) (by norm_num)⟩


end Screener

namespace Screener

set_option maxHeartbeats 4000000

/-- C8 counterexample: on the concrete ten-record universe `demoRecs`
the top record's internal one-decimal score is 46.7, but the serialized
`score` field is `int(46.7) = 46`, not the nearest integer 47 — so the
serialized scores are not the nearest-integer roundings of the internal
scores. -/
theorem c8_score_rounding_counterexample :
    (run_screener "t" demoRecs).map (fun o => o.stocks.map (fun s => s.score)) ≠
      some ((topTable demoRecs).map (fun r => round r.score)) := by
  have hq1 : quantile VOLATILITY_PERCENTILE (demoRecs.enum.map (fun r => r.2.volatility)) =
      127/10 := by
    norm_num [demoRecs, List.enum, List.enumFrom, quantile, sortOrd, insertOrd, qle,
      VOLATILITY_PERCENTILE]
    simp only [Int.reduceToNat]
    norm_num
  have hv : volFilter demoRecs.enum =
      [(0, ⟨"AAA", "A", "S", 10, 5, 2⟩), (1, ⟨"BBB", "B", "S", 11, 5, 2⟩),
        (2, ⟨"CCC", "C", "S", 12, 5, 2⟩)] := by
    simp only [volFilter]
    rw [hq1]
    norm_num [demoRecs, List.enum, List.enumFrom]
  have hq2 : quantile MOMENTUM_CUTOFF
      (([(0, ⟨"AAA", "A", "S", 10, 5, 2⟩), (1, ⟨"BBB", "B", "S", 11, 5, 2⟩),
        (2, ⟨"CCC", "C", "S", 12, 5, 2⟩)] : List (ℕ × SecurityRecord)).map
        (fun r => r.2.momentum)) = 5 := by
    norm_num [quantile, sortOrd, insertOrd, qle, MOMENTUM_CUTOFF]
  have hm : momFilter
      [(0, ⟨"AAA", "A", "S", 10, 5, 2⟩), (1, ⟨"BBB", "B", "S", 11, 5, 2⟩),
        (2, ⟨"CCC", "C", "S", 12, 5, 2⟩)] =
      [(0, ⟨"AAA", "A", "S", 10, 5, 2⟩), (1, ⟨"BBB", "B", "S", 11, 5, 2⟩),
        (2, ⟨"CCC", "C", "S", 12, 5, 2⟩)] := by
    simp only [momFilter]
    rw [hq2]
    norm_num
  have hfil : filteredTable demoRecs =
      [(0, ⟨"AAA", "A", "S", 10, 5, 2⟩), (1, ⟨"BBB", "B", "S", 11, 5, 2⟩),
        (2, ⟨"CCC", "C", "S", 12, 5, 2⟩)] := by
    unfold filteredTable
    rw [hv, hm]
  have hs : scoreRows
      [(0, ⟨"AAA", "A", "S", 10, 5, 2⟩), (1, ⟨"BBB", "B", "S", 11, 5, 2⟩),
        (2, ⟨"CCC", "C", "S", 12, 5, 2⟩)] =
      [⟨0, ⟨"AAA", "A", "S", 10, 5, 2⟩, 100/3, 200/3, 200/3, 467/10⟩,
       ⟨1, ⟨"BBB", "B", "S", 11, 5, 2⟩, 200/3, 200/3, 200/3, 333/10⟩,
       ⟨2, ⟨"CCC", "C", "S", 12, 5, 2⟩, 100, 200/3, 200/3, 20⟩] := by
    norm_num [scoreRows, scoreRow, rankAsc, rankDesc, round1, roundHE, W_VOL, W_MOM, W_YILD,
      List.countP_cons, List.countP_nil]
  have hsort : sortOrd scoreGe
      [⟨0, ⟨"AAA", "A", "S", 10, 5, 2⟩, 100/3, 200/3, 200/3, 467/10⟩,
       ⟨1, ⟨"BBB", "B", "S", 11, 5, 2⟩, 200/3, 200/3, 200/3, 333/10⟩,
       ⟨2, ⟨"CCC", "C", "S", 12, 5, 2⟩, 100, 200/3, 200/3, 20⟩] =
      [⟨0, ⟨"AAA", "A", "S", 10, 5, 2⟩, 100/3, 200/3, 200/3, 467/10⟩,
       ⟨1, ⟨"BBB", "B", "S", 11, 5, 2⟩, 200/3, 200/3, 200/3, 333/10⟩,
       ⟨2, ⟨"CCC", "C", "S", 12, 5, 2⟩, 100, 200/3, 200/3, 20⟩] := by
    norm_num [sortOrd, insertOrd, scoreGe]
  have htop : topTable demoRecs =
      [⟨0, ⟨"AAA", "A", "S", 10, 5, 2⟩, 100/3, 200/3, 200/3, 467/10⟩,
       ⟨1, ⟨"BBB", "B", "S", 11, 5, 2⟩, 200/3, 200/3, 200/3, 333/10⟩,
       ⟨2, ⟨"CCC", "C", "S", 12, 5, 2⟩, 100, 200/3, 200/3, 20⟩] := by
    unfold topTable sortedByScore rankedTable
    rw [hfil, hs, hsort]
    norm_num [TOP_N]
  have hrun : run_screener "t" demoRecs =
      some ⟨"t", 10, serializeStocks (topTable demoRecs)⟩ := by
    unfold run_screener
    rw [if_neg (by norm_num [demoRecs, TOP_N])]
    norm_num [demoRecs]
  have hser : serializeStocks (topTable demoRecs) =
      [⟨1, "AAA", "A", "S", 10, 5, 2, 46⟩, ⟨2, "BBB", "B", "S", 11, 5, 2, 33⟩,
       ⟨3, "CCC", "C", "S", 12, 5, 2, 20⟩] := by
    rw [htop]
    norm_num [serializeStocks, pyInt, List.enum, List.enumFrom]
  have hround : ((topTable demoRecs).map (fun r => round r.score)) = [47, 33, 20] := by
    rw [htop]
    norm_num [round_eq]
  rw [hrun, hround, hser]
  norm_num


/-- C8 (amended): the composite score is rounded to one decimal place
internally, is nonnegative, and the `score` field of the serialized
output is that value truncated toward zero by Python `int()` — i.e. its
floor, since scores are nonnegative — not rounded to the nearest
integer. -/
theorem c8_truncated_score (t : String) (recs : List SecurityRecord) (h : TOP_N ≤ recs.length) :
    (run_screener t recs).map (fun o => o.stocks.map (fun s => s.score)) =
      some ((topTable recs).map (fun r => ⌊r.score⌋)) ∧
    ∀ r ∈ topTable recs, 0 ≤ r.score ∧
      r.score = round1 ((100 - r.rank_vol) * W_VOL + (100 - r.rank_mom) * W_MOM +
        (100 - r.rank_yild) * W_YILD) := by
  have hnn : ∀ r ∈ topTable recs, 0 ≤ r.score := by
    intro r hr
    exact scoreRows_score_nonneg _ r (mem_topTable_ranked recs r hr)
  constructor
  · unfold run_screener
    rw [if_neg (not_lt.2 h)]
    show some ((serializeStocks (topTable recs)).map (fun s => s.score)) =
      some ((topTable recs).map (fun r => ⌊r.score⌋))
    rw [serializeStocks_map_score]
    congr 1
    apply List.map_congr_left
    intro r hr
    unfold pyInt
    rw [if_pos (hnn r hr)]
  · intro r hr
    refine ⟨hnn r hr, ?_⟩
    obtain ⟨r', hr', rfl⟩ := (mem_scoreRows _ _).1 (mem_topTable_ranked recs r hr)
    exact scoreRow_score _ _

/-- Witness for the amended C8 on the ten-record demo universe. -/
theorem c8_truncated_score_witness :
    TOP_N ≤ demoRecs.length ∧
    ((run_screener "t" demoRecs).map (fun o => o.stocks.map (fun s => s.score)) =
      some ((topTable demoRecs).map (fun r => ⌊r.score⌋)) ∧
    ∀ r ∈ topTable demoRecs, 0 ≤ r.score ∧
      r.score = round1 ((100 - r.rank_vol) * W_VOL + (100 - r.rank_mom) * W_MOM +
        (100 - r.rank_yild) * W_YILD)) :=
  ⟨by decide, c8_truncated_score "t" demoRecs (by decide)⟩

/-- C1: when the run reaches top-N selection, the serialized `stocks`
array has length `min TOP_N n` (with `n` the number of records surviving
both filters), its `rank` fields are exactly `1, 2, …, len` in ascending
order, the selected records descend in score, together with the dropped
part of the stably sorted table they form a permutation of the scored
table, and every selected record beats every dropped record by score —
with ties broken by original table order (first-seen wins, smaller
original index selected first). -/
theorem c1_top_selection (t : String) (recs : List SecurityRecord) (h : TOP_N ≤ recs.length) :
    run_screener t recs = some ⟨t, recs.length, serializeStocks (topTable recs)⟩ ∧
    (serializeStocks (topTable recs)).length = min TOP_N (rankedTable recs).length ∧
    (serializeStocks (topTable recs)).map (fun s => s.rank) =
      List.range' 1 (min TOP_N (rankedTable recs).length) ∧
    (topTable recs).Chain' (fun a b => b.score ≤ a.score) ∧
    (topTable recs ++ (sortedByScore recs).drop TOP_N).Perm (rankedTable recs) ∧
    (∀ x ∈ topTable recs, ∀ y ∈ (sortedByScore recs).drop TOP_N,
      y.score < x.score ∨ (y.score = x.score ∧ x.idx < y.idx)) := by
  have hsplit : topTable recs ++ (sortedByScore recs).drop TOP_N = sortedByScore recs :=
    List.take_append_drop TOP_N (sortedByScore recs)
  have hpw2 : (topTable recs ++ (sortedByScore recs).drop TOP_N).Pairwise
      (fun a b => b.score < a.score ∨ (b.score = a.score ∧ a.idx < b.idx)) := by
    rw [hsplit]
    exact sortedByScore_pairwise recs
  obtain ⟨hp1, hp2, hp3⟩ := List.pairwise_append.1 hpw2
  refine ⟨?_, ?_, ?_, ?_, ?_, hp3⟩
  · unfold run_screener
    rw [if_neg (not_lt.2 h)]
  · rw [serializeStocks_length, topTable_length]
  · rw [serializeStocks_map_rank, topTable_length]
  · apply List.Pairwise.chain'
    apply hp1.imp
    intro a b hab
    rcases hab with hlt | ⟨heq, _⟩
    · exact le_of_lt hlt
    · exact le_of_eq heq
  · rw [hsplit]
    unfold sortedByScore
    exact sortOrd_perm _ _

/-- Witness for C1 on the ten-record demo universe. -/
theorem c1_top_selection_witness :
    TOP_N ≤ demoRecs.length ∧
    (run_screener "t" demoRecs = some ⟨"t", demoRecs.length, serializeStocks (topTable demoRecs)⟩ ∧
    (serializeStocks (topTable demoRecs)).length = min TOP_N (rankedTable demoRecs).length ∧
    (serializeStocks (topTable demoRecs)).map (fun s => s.rank) =
      List.range' 1 (min TOP_N (rankedTable demoRecs).length) ∧
    (topTable demoRecs).Chain' (fun a b => b.score ≤ a.score) ∧
    (topTable demoRecs ++ (sortedByScore demoRecs).drop TOP_N).Perm (rankedTable demoRecs) ∧
    (∀ x ∈ topTable demoRecs, ∀ y ∈ (sortedByScore demoRecs).drop TOP_N,
      y.score < x.score ∨ (y.score = x.score ∧ x.idx < y.idx))) :=
  ⟨by decide, c1_top_selection "t" demoRecs (by decide)⟩


end Screener
